import Mathlib

/-!
Verification of the sqlpie serialized-SQL find/replace tool.

The development shallowly embeds `src/bin/sqlpie.js` over `List Char`
(documents are UTF-8 text; all inputs considered here are ASCII, where
JavaScript's UTF-16 code-unit length, byte length and character count
coincide).  The find pattern and the replace string are modelled as
literal character sequences: every pattern appearing in a settled claim
is metacharacter-free, and over such patterns JavaScript's
`new RegExp(find)` matches exactly the literal occurrences.  The one
regex metacharacter that a claim does exercise — `.` inside a scanned
value, compiled un-escaped into the Document Patcher's search key —
is modelled faithfully as a wildcard (any non-line-terminator).
-/

namespace Sqlpie

/-- Line terminators of JavaScript regexes: `.` matches any character
except these four. -/
def notLineTerm (c : Char) : Bool :=
  !(c == '\n' || c == '\r' || c == '\u2028' || c == '\u2029')

/-- The character class `[;{}]` of the scanner regex
`[;{}]s:(\d+):"([^"]+)";` in `findSerializedStrings` (sqlpie.js:89). -/
def isDelim (c : Char) : Bool :=
  c == ';' || c == '{' || c == '}'

/-- JavaScript's `parseInt` on a non-empty all-digit decimal string
(sqlpie.js:96). -/
def natOfDigits (ds : List Char) : Nat :=
  ds.foldl (fun n c => n * 10 + (c.toNat - 48)) 0

/-- The text of a serialized token with its leading delimiter stripped:
`s:<ds>:"<vs>";`. -/
def tokTail (ds vs : List Char) : List Char :=
  's' :: ':' :: (ds ++ ':' :: '"' :: (vs ++ ['"', ';']))

/-- The full text matched by the scanner regex at one occurrence:
delimiter, then `s:<ds>:"<vs>";`. -/
def serText (d : Char) (ds vs : List Char) : List Char :=
  d :: tokTail ds vs

/-- One attempt of the scanner regex `[;{}]s:(\d+):"([^"]+)";` anchored at
the current position (sqlpie.js:89).  The regex is deterministic: `\d+`
and `[^"]+` are maximal runs (any backtracked shorter run would have to
match `:` against a digit, resp. `"` against a non-quote, so no
backtracking can succeed).  On success returns the matched text and the
remainder of the document after the match. -/
def matchSerAt (l : List Char) : Option (List Char × List Char) :=
  match l with
  | d :: c1 :: c2 :: r2 =>
    if isDelim d && c1 == 's' && c2 == ':' then
      let ds := r2.takeWhile Char.isDigit
      match r2.drop ds.length with
      | c3 :: c4 :: r4 =>
        if !ds.isEmpty && c3 == ':' && c4 == '"' then
          let vs := r4.takeWhile (fun c => !(c == '"'))
          match r4.drop vs.length with
          | c5 :: c6 :: r6 =>
            if !vs.isEmpty && c5 == '"' && c6 == ';' then
              some (serText d ds vs, r6)
            else none
          | _ => none
        else none
      | _ => none
    else none
  | _ => none

/-- Global scan of the document with the scanner regex, i.e.
`sql.match(new RegExp(re, 'g'))` (sqlpie.js:91): leftmost matches,
non-overlapping, continuing right after each match.  Fuel-driven; the
callers always supply the document length, which suffices because every
match consumes at least one character. -/
def scanGo : Nat → List Char → List (List Char)
  | 0, _ => []
  | _ + 1, [] => []
  | fuel + 1, c :: rest =>
    match matchSerAt (c :: rest) with
    | some (m, r) => m :: scanGo fuel r
    | none => scanGo fuel rest

/-- The list of substrings of `sql` matched by the scanner regex, in
order of appearance (sqlpie.js:91). -/
def scanSer (sql : List Char) : List (List Char) :=
  scanGo sql.length sql

/-- A serialized-string record as built by `findSerializedStrings`
(sqlpie.js:94-98): the matched source text, the parsed length digits and
the quoted value. -/
structure SerString where
  source : List Char
  chars : Nat
  value : List Char
  deriving Repr, DecidableEq

/-- Re-parse of one matched substring with
`re2 = /^.s:(\d+):"(.*)";$/` and field extraction (sqlpie.js:90,93-97).
Without the `s` flag `.` does not match a line terminator, so the match
fails — and the JavaScript code then throws on `parts[0]` — whenever the
quoted value contains one.  `(.*)";$` forces the final two characters to
be `";` and everything between `:"` and them (newline-free) to be the
captured value. -/
def reParse (l : List Char) : Option SerString :=
  match l with
  | c0 :: c1 :: c2 :: r2 =>
    if notLineTerm c0 && c1 == 's' && c2 == ':' then
      let ds := r2.takeWhile Char.isDigit
      match r2.drop ds.length with
      | c3 :: c4 :: t =>
        if !ds.isEmpty && c3 == ':' && c4 == '"' then
          match t.reverse with
          | c6 :: c5 :: midrev =>
            if c6 == ';' && c5 == '"' && midrev.reverse.all notLineTerm then
              some ⟨l, natOfDigits ds, midrev.reverse⟩
            else none
          | _ => none
        else none
      | _ => none
    else none
  | _ => none

/-- Effectful map over a list in the `Option` monad; `none` as soon as one
element fails (a thrown `TypeError` in the JavaScript aborts the whole
`_.map`). -/
def mapOption (f : α → Option β) : List α → Option (List β)
  | [] => some []
  | a :: as =>
    match f a, mapOption f as with
    | some b, some bs => some (b :: bs)
    | _, _ => none

/-- `findSerializedStrings` (sqlpie.js:88-101): match the scanner regex
globally, then decompose each matched substring with `re2`.  `none`
models the `TypeError` thrown when a re-parse fails (`parts` is `null`). -/
def findSerializedStrings (sql : List Char) : Option (List SerString) :=
  mapOption reParse (scanSer sql)

/-- `re.test(source)` for a literal find pattern: does `find` occur in the
text anywhere (sqlpie.js:144)? -/
def hasMatch (find : List Char) : List Char → Bool
  | [] => find.isPrefixOf []
  | c :: rest => find.isPrefixOf (c :: rest) || hasMatch find rest

/-- Fuel-driven core of `countMatches`: number of leftmost,
non-overlapping occurrences of the (non-empty) literal `find`. -/
def countGo (find : List Char) : Nat → List Char → Nat
  | 0, _ => 0
  | _ + 1, [] => 0
  | fuel + 1, c :: rest =>
    if find.isPrefixOf (c :: rest) then
      1 + countGo find fuel ((c :: rest).drop find.length)
    else countGo find fuel rest

/-- `countMatches` (sqlpie.js:111-115) for a literal find pattern: the
number of matches of `new RegExp(find, 'gm')` in `source`.  An empty
pattern matches at every position and at the end, as in JavaScript. -/
def countMatches (find source : List Char) : Nat :=
  if find.isEmpty then source.length + 1 else countGo find source.length source

/-- Fuel-driven core of the global literal replacement. -/
def replGo (find repl : List Char) : Nat → List Char → List Char
  | 0, l => l
  | _ + 1, [] => []
  | fuel + 1, c :: rest =>
    if find.isPrefixOf (c :: rest) then
      repl ++ replGo find repl fuel ((c :: rest).drop find.length)
    else c :: replGo find repl fuel rest

/-- `source.replace(new RegExp(find, 'g'), repl)` for a literal find:
global, leftmost, non-overlapping substitution whose output is never
re-scanned (sqlpie.js:145,282).  An empty pattern inserts `repl` at every
position and at the end, as in JavaScript. -/
def replaceAll (find repl source : List Char) : List Char :=
  if find.isEmpty then repl ++ source.flatMap (fun c => c :: repl)
  else replGo find repl source.length source

/-- The regex `/^.s:\d+:"([^"]+)".$/` with replacement `'$1'` applied
non-globally (sqlpie.js:146): if the whole string has that shape the
result is the captured quoted run, otherwise the string is returned
unchanged.  The pattern is anchored at both ends, `.` excludes line
terminators, and `\d+`/`[^"]+` are deterministic maximal runs. -/
def extractValue (l : List Char) : List Char :=
  match l with
  | c0 :: c1 :: c2 :: r2 =>
    if notLineTerm c0 && c1 == 's' && c2 == ':' then
      let ds := r2.takeWhile Char.isDigit
      match r2.drop ds.length with
      | c3 :: c4 :: t =>
        if !ds.isEmpty && c3 == ':' && c4 == '"' then
          let vs := t.takeWhile (fun c => !(c == '"'))
          match t.drop vs.length with
          | [c5, c6] =>
            if !vs.isEmpty && c5 == '"' && notLineTerm c6 then vs else l
          | _ => l
        else l
      | _ => l
    else l
  | _ => l

/-- A token record after the planning map (sqlpie.js:141-150):
`rewriteValue` is `null` (`none`) and `rewriteChars` is `0` when the find
pattern does not match the token's source text; otherwise `rewriteValue`
is the WHOLE source span after global substitution (the code never
re-extracts the quoted portion into `rewriteValue` — only `rewriteChars`
receives the extracted length). -/
structure PlanEntry where
  source : List Char
  chars : Nat
  value : List Char
  rewriteChars : Nat
  rewriteValue : Option (List Char)
  deriving Repr, DecidableEq

/-- The body of the planning `_.map` (sqlpie.js:141-150). -/
def planEntry (find repl : List Char) (s : SerString) : PlanEntry :=
  if hasMatch find s.source then
    let rv := replaceAll find repl s.source
    ⟨s.source, s.chars, s.value, (extractValue rv).length, some rv⟩
  else
    ⟨s.source, s.chars, s.value, 0, none⟩

/-- The patch plan: planned entries after the `rewriteChars !== 0` filter
(sqlpie.js:153-155). -/
def plannedEntries (find repl : List Char) (strings : List SerString) :
    List PlanEntry :=
  (strings.map (planEntry find repl)).filter (fun e => e.rewriteChars != 0)

/-- `replaceCount`: the number of tokens whose source the find pattern
matched (sqlpie.js:140-148), counted BEFORE the empties filter. -/
def replaceCountOf (find repl : List Char) (strings : List SerString) : Nat :=
  ((strings.map (planEntry find repl)).filter
    (fun e => e.rewriteValue.isSome)).length

/-- The Document Patcher's search key `'s:' + chars + ':"' + value + '"'`
compiled by `new RegExp` WITHOUT escaping (sqlpie.js:200): a `.` inside
the value becomes a wildcard for any non-line-terminator.  (Values in the
settled claims contain no other regex metacharacter; other characters
are literals.) -/
def compileKey (chars : Nat) (value : List Char) : List (Option Char) :=
  ('s' :: ':' :: (Nat.toDigits 10 chars ++ ':' :: '"' :: (value ++ ['"']))).map
    (fun c => if c == '.' then none else some c)

/-- Does the fixed-length key pattern match at the head of the text? -/
def patMatch : List (Option Char) → List Char → Bool
  | [], _ => true
  | _ :: _, [] => false
  | p :: ps, c :: cs =>
    (match p with
     | none => notLineTerm c
     | some d => d == c) && patMatch ps cs

/-- `sql.replace(re, repl)` for the compiled key: a single, non-global
substitution at the leftmost match (sqlpie.js:201). -/
def replaceFirstPat (pat : List (Option Char)) (repl : List Char) :
    List Char → List Char
  | [] => []
  | c :: rest =>
    if patMatch pat (c :: rest) then repl ++ (c :: rest).drop pat.length
    else c :: replaceFirstPat pat repl rest

/-- The replacement text `'s:' + rewriteChars + ':"' + rewriteValue + '"'`
(sqlpie.js:201).  For a planned entry `rewriteValue` is always `some`. -/
def rewriteText (e : PlanEntry) : List Char :=
  's' :: ':' ::
    (Nat.toDigits 10 e.rewriteChars ++ ':' :: '"' :: (e.rewriteValue.getD [] ++ ['"']))

/-- The non-verbose patch loop (sqlpie.js:199-202): apply the planned
rewrites to the document strictly in scan order. -/
def applyPlan (planned : List PlanEntry) (sql : List Char) : List Char :=
  planned.foldl
    (fun acc e => replaceFirstPat (compileKey e.chars e.value) (rewriteText e) acc)
    sql

/-- `rewriteSerializedSql` (sqlpie.js:126-205).  `none` models a crash
with no result delivered to the callback: either a re-parse `TypeError`
in `findSerializedStrings`, or — verbose mode only — the interval timer
indexing `strings[idx]` past the end of the FILTERED plan, which happens
exactly when some matched token was dropped by the empties filter, since
the progress bar total is the pre-filter `replaceCount`
(sqlpie.js:176,180-195).  When the filtered plan has the full
`replaceCount` entries, the verbose timer performs the same replacements
in the same order as the non-verbose loop. -/
def rewriteSerializedSql (verbose : Bool) (sql find repl : List Char) :
    Option (List Char) :=
  match findSerializedStrings sql with
  | none => none
  | some strings =>
    let replaceCount := replaceCountOf find repl strings
    let planned := plannedEntries find repl strings
    if replaceCount = 0 then some sql
    else if verbose && planned.length < replaceCount then none
    else some (applyPlan planned sql)

/-- `reserialize` (sqlpie.js:250-263): skip the whole serialized stage
when the document has no match of the find pattern. -/
def reserialize (verbose : Bool) (find repl sql : List Char) :
    Option (List Char) :=
  if countMatches find sql = 0 then some sql
  else rewriteSerializedSql verbose sql find repl

/-- The plain rewrite stage `rewrite` (sqlpie.js:272-286): global
substitution over the whole document, skipped when a pre-count finds no
match. -/
def rewritePass (find repl sql : List Char) : List Char :=
  if countMatches find sql = 0 then sql else replaceAll find repl sql

/-- The two rewrite stages of the waterfall in order (sqlpie.js:318-322):
serialized-token stage, then plain rewrite pass. -/
def pipeline (verbose : Bool) (find repl sql : List Char) :
    Option (List Char) :=
  match reserialize verbose find repl sql with
  | none => none
  | some s => some (rewritePass find repl s)

/-- The file writes performed by one full run.  `fs` is the readable
content of the input path: `none` when the path is missing or not a
regular file, in which case `readFile` (sqlpie.js:51-59) yields `''`.
`initialize` errors on empty content (sqlpie.js:217-219) and `complete`
then exits before `writeFile`; otherwise the single `writeFile` happens
after both stages succeed (sqlpie.js:295-312).  A crash inside the stages
never reaches `complete`, so nothing is written. -/
def mainWrites (fs : Option (List Char)) (find repl : List Char)
    (verbose : Bool) : List (List Char) :=
  if (fs.getD []).isEmpty then []
  else
    match pipeline verbose find repl (fs.getD []) with
    | none => []
    | some out => [out]

/-- The process exit code of one full run: `1` from `complete` on a
pipeline error (sqlpie.js:298-301), `1` for a crash that never reaches
the callback, `0` after a successful write. -/
def mainExitCode (fs : Option (List Char)) (find repl : List Char)
    (verbose : Bool) : Nat :=
  if (fs.getD []).isEmpty then 1
  else
    match pipeline verbose find repl (fs.getD []) with
    | none => 1
    | some _ => 0

/-- The decomposition the Serialized Token Scanner claim describes for a
matched substring: `declaredLength` is the integer parsed from the digit
run after `s:`, and `value` is the text between the double quotes (the
matched text minus the trailing `";` after the opening quote). -/
def specValue (m : List Char) : List Char :=
  (((m.dropWhile (fun c => !(c == '"'))).drop 1).dropLast).dropLast

/-- The claim-side `SerializedToken` built from one matched substring:
full matched text, parsed length, quoted value. -/
def specDecomp (m : List Char) : SerString :=
  ⟨m, natOfDigits ((m.drop 3).takeWhile Char.isDigit), specValue m⟩

end Sqlpie
namespace Sqlpie

theorem takeWhile_length_drop (p : Char → Bool) (l : List Char) :
    l.takeWhile p ++ l.drop (l.takeWhile p).length = l := by
  induction l with
  | nil => simp
  | cons a t ih =>
    by_cases h : p a
    · simp [List.takeWhile_cons, h, ih]
    · simp [List.takeWhile_cons, h]

theorem mem_takeWhile (p : Char → Bool) (l : List Char) (c : Char)
    (h : c ∈ l.takeWhile p) : p c = true := by
  induction l with
  | nil => simp [List.takeWhile] at h
  | cons a t ih =>
    by_cases hp : p a
    · rw [List.takeWhile_cons, if_pos hp] at h
      rcases List.mem_cons.mp h with h1 | h1
      · exact h1 ▸ hp
      · exact ih h1
    · rw [List.takeWhile_cons, if_neg hp] at h
      simp at h

theorem takeWhile_append_cons (p : Char → Bool) (a : List Char) (x : Char)
    (t : List Char) (ha : ∀ c ∈ a, p c = true) (hx : p x = false) :
    (a ++ x :: t).takeWhile p = a := by
  induction a with
  | nil => simp [List.takeWhile_cons, hx]
  | cons c a' ih =>
    have hc : p c = true := ha c (List.mem_cons_self c a')
    simp only [List.cons_append, List.takeWhile_cons, hc, if_true]
    rw [ih (fun d hd => ha d (List.mem_cons_of_mem c hd))]

theorem dropWhile_append_cons (p : Char → Bool) (a : List Char) (x : Char)
    (t : List Char) (ha : ∀ c ∈ a, p c = true) (hx : p x = false) :
    (a ++ x :: t).dropWhile p = x :: t := by
  induction a with
  | nil => simp [List.dropWhile_cons, hx]
  | cons c a' ih =>
    have hc : p c = true := ha c (List.mem_cons_self c a')
    simp only [List.cons_append, List.dropWhile_cons, hc, if_true]
    exact ih (fun d hd => ha d (List.mem_cons_of_mem c hd))

/-- C3: for every non-empty input document in which the find pattern has
zero matches, the run writes the input back unchanged — the serialized
stage and the plain rewrite stage both short-circuit on a zero
pre-count. -/
theorem c3_zero_matches_id (sql find repl : List Char) (verbose : Bool)
    (h1 : sql ≠ []) (h2 : countMatches find sql = 0) :
    mainWrites (some sql) find repl verbose = [sql] := by
  have hne : sql.isEmpty = false := by
    cases sql with
    | nil => exact absurd rfl h1
    | cons a l => rfl
  simp [mainWrites, hne, pipeline, reserialize, rewritePass, h2]

/-- C8: when the input path is missing, not a regular file, or reads as
empty (all of which `readFile` renders as empty content), the pipeline
aborts before any rewrite stage, exits non-zero and writes nothing; and
in every run the output file is written at most once. -/
theorem c8_no_partial_write (fs : Option (List Char)) (find repl : List Char)
    (verbose : Bool) :
    (fs.getD [] = [] → mainWrites fs find repl verbose = []
      ∧ mainExitCode fs find repl verbose ≠ 0)
    ∧ (mainWrites fs find repl verbose).length ≤ 1 := by
  constructor
  · intro h
    have he : (fs.getD []).isEmpty = true := by simp [h]
    constructor
    · simp [mainWrites, he]
    · simp [mainExitCode, he]
  · by_cases h : (fs.getD []).isEmpty
    · simp [mainWrites, h]
    · simp only [mainWrites, h, if_false]
      rcases hp : pipeline verbose find repl (fs.getD []) with _ | out <;> simp [hp]

end Sqlpie
namespace Sqlpie

theorem isDelim_not_digit (c : Char) (h : isDelim c = true) : c.isDigit = false := by
  simp only [isDelim, Bool.or_eq_true, beq_iff_eq] at h
  rcases h with (h | h) | h <;> subst h <;> decide

theorem isDelim_not_quote (c : Char) (h : isDelim c = true) : (c == '"') = false := by
  simp only [isDelim, Bool.or_eq_true, beq_iff_eq] at h
  rcases h with (h | h) | h <;> subst h <;> decide

theorem digit_not_delim (c : Char) (h : c.isDigit = true) : isDelim c = false := by
  cases hd : isDelim c
  · rfl
  · rw [isDelim_not_digit c hd] at h
    cases h

theorem digit_not_quote (c : Char) (h : c.isDigit = true) : (c == '"') = false := by
  cases hq : c == '"'
  · rfl
  · rw [beq_iff_eq] at hq
    subst hq
    cases h

theorem matchSerAt_serText (d : Char) (ds vs rest : List Char)
    (hd : isDelim d = true) (hds : ds ≠ []) (hdig : ∀ c ∈ ds, c.isDigit = true)
    (hvs : vs ≠ []) (hq : '"' ∉ vs) :
    matchSerAt (serText d ds vs ++ rest) = some (serText d ds vs, rest) := by
  have e : serText d ds vs ++ rest
      = d :: 's' :: ':' :: (ds ++ ':' :: '"' :: (vs ++ '"' :: ';' :: rest)) := by
    simp [serText, tokTail]
  have htk : (ds ++ ':' :: '"' :: (vs ++ '"' :: ';' :: rest)).takeWhile Char.isDigit
      = ds := takeWhile_append_cons _ _ _ _ hdig (by decide)
  have htk2 : (vs ++ '"' :: ';' :: rest).takeWhile (fun c => !(c == '"')) = vs := by
    refine takeWhile_append_cons _ _ _ _ (fun c hc => ?_) (by decide)
    have : (c == '"') = false := by
      cases h : c == '"'
      · rfl
      · rw [beq_iff_eq] at h
        exact absurd (h ▸ hc) hq
    simp [this]
  rw [e]
  simp only [matchSerAt, htk, List.drop_left, htk2, hd, Bool.true_and]
  have hds' : ds.isEmpty = false := by
    cases ds with
    | nil => exact absurd rfl hds
    | cons a t => rfl
  have hvs' : vs.isEmpty = false := by
    cases vs with
    | nil => exact absurd rfl hvs
    | cons a t => rfl
  simp [hds', hvs', serText, tokTail, e]

theorem matchSerAt_none_head (c : Char) (t : List Char) (h : isDelim c = false) :
    matchSerAt (c :: t) = none := by
  cases t with
  | nil => rfl
  | cons c1 t1 =>
    cases t1 with
    | nil => rfl
    | cons c2 t2 => simp [matchSerAt, h]

end Sqlpie
namespace Sqlpie

theorem matchSerAt_inv (l m r : List Char) (h : matchSerAt l = some (m, r)) :
    ∃ d ds vs, isDelim d = true ∧ ds ≠ [] ∧ (∀ c ∈ ds, c.isDigit = true)
      ∧ vs ≠ [] ∧ '"' ∉ vs ∧ m = serText d ds vs ∧ l = serText d ds vs ++ r := by
  match l with
  | [] => exact absurd h (by simp [matchSerAt])
  | [c0] => exact absurd h (by simp [matchSerAt])
  | [c0, c1] => exact absurd h (by simp [matchSerAt])
  | c0 :: c1 :: c2 :: r2 =>
    simp only [matchSerAt] at h
    split at h
    case isFalse => exact absurd h (by simp)
    case isTrue hcond =>
      simp only [Bool.and_eq_true, beq_iff_eq] at hcond
      obtain ⟨⟨hd, hc1⟩, hc2⟩ := hcond
      have e1 : r2.takeWhile Char.isDigit
          ++ r2.drop (r2.takeWhile Char.isDigit).length = r2 :=
        takeWhile_length_drop _ _
      have hdigs : ∀ c ∈ r2.takeWhile Char.isDigit, c.isDigit = true :=
        fun c hc => mem_takeWhile _ _ _ hc
      set ds := r2.takeWhile Char.isDigit with hds_def
      clear_value ds
      split at h
      case h_2 => exact absurd h (by simp)
      case h_1 c3 c4 r4 hdrop =>
        split at h
        case isFalse => exact absurd h (by simp)
        case isTrue hcond2 =>
          simp only [Bool.and_eq_true, beq_iff_eq, Bool.not_eq_true'] at hcond2
          obtain ⟨⟨hne, hc3⟩, hc4⟩ := hcond2
          have e2 : r4.takeWhile (fun c => !(c == '"'))
              ++ r4.drop (r4.takeWhile (fun c => !(c == '"'))).length = r4 :=
            takeWhile_length_drop _ _
          have hqs : ∀ c ∈ r4.takeWhile (fun c => !(c == '"')), (!(c == '"')) = true :=
            fun c hc => mem_takeWhile _ _ _ hc
          set vs := r4.takeWhile (fun c => !(c == '"')) with hvs_def
          clear_value vs
          split at h
          case h_2 => exact absurd h (by simp)
          case h_1 c5 c6 r6 hdrop2 =>
            split at h
            case isFalse => exact absurd h (by simp)
            case isTrue hcond3 =>
              simp only [Bool.and_eq_true, beq_iff_eq, Bool.not_eq_true'] at hcond3
              obtain ⟨⟨hne2, hc5⟩, hc6⟩ := hcond3
              obtain ⟨hm, hr⟩ := by
                simpa using h
              subst hc1
              subst hc2
              subst hc3
              subst hc4
              subst hc5
              subst hc6
              subst hm
              subst hr
              rw [hdrop] at e1
              rw [hdrop2] at e2
              refine ⟨c0, ds, vs, hd, ?_, hdigs, ?_, ?_, rfl, ?_⟩
              · intro hnil
                rw [hnil] at hne
                simp at hne
              · intro hnil
                rw [hnil] at hne2
                simp at hne2
              · intro hmem
                have := hqs _ hmem
                simp at this
              · rw [← e1, ← e2]
                simp [serText, tokTail]

end Sqlpie
namespace Sqlpie

theorem count_ge_two_of_matchSerAt (l m r : List Char)
    (h : matchSerAt l = some (m, r)) : 2 ≤ l.count '"' := by
  obtain ⟨d, ds, vs, _, _, _, _, _, _, hl⟩ := matchSerAt_inv l m r h
  subst hl
  simp [serText, tokTail, List.count_append, List.count_cons]
  omega

theorem matchSerAt_none_of_count (l : List Char) (h : l.count '"' < 2) :
    matchSerAt l = none := by
  cases hm : matchSerAt l with
  | none => rfl
  | some mr =>
    have := count_ge_two_of_matchSerAt l mr.1 mr.2 (by rw [hm])
    omega

theorem suffix_append_cases (s a b : List Char) (h : s <:+ a ++ b) :
    s <:+ b ∨ ∃ a1, a1 <:+ a ∧ a1 ≠ [] ∧ s = a1 ++ b := by
  induction a with
  | nil => exact Or.inl (by simpa using h)
  | cons c a' ih =>
    rw [List.cons_append, List.suffix_cons_iff] at h
    rcases h with h | h
    · exact Or.inr ⟨c :: a', List.suffix_refl _, List.cons_ne_nil _ _, by simpa using h⟩
    · rcases ih h with h1 | ⟨a1, ha1, hne, hs⟩
      · exact Or.inl h1
      · exact Or.inr ⟨a1, ha1.trans (List.suffix_cons c a'), hne, hs⟩

theorem scanGo_nil_of (fuel : Nat) (l : List Char)
    (h : ∀ s, s <:+ l → matchSerAt s = none) : scanGo fuel l = [] := by
  induction fuel generalizing l with
  | zero => rfl
  | succ fuel ih =>
    cases l with
    | nil => rfl
    | cons c rest =>
      have hself : matchSerAt (c :: rest) = none := h _ (List.suffix_refl _)
      simp only [scanGo, hself]
      exact ih rest (fun s hs => h s (hs.trans (List.suffix_cons c rest)))

theorem matchSerAt_none_suffix_tokTail (ds w : List Char)
    (hdig : ∀ c ∈ ds, c.isDigit = true) (hq : '"' ∉ w) :
    ∀ s, s <:+ tokTail ds w → matchSerAt s = none := by
  intro s hs
  have e : tokTail ds w = ('s' :: ':' :: (ds ++ [':', '"'])) ++ (w ++ ['"', ';']) := by
    simp [tokTail]
  rw [e] at hs
  rcases suffix_append_cases _ _ _ hs with h | ⟨a1, ha1, hne, hseq⟩
  · refine matchSerAt_none_of_count _ ?_
    have hsub : s.count '"' ≤ (w ++ ['"', ';']).count '"' :=
      h.sublist.count_le _
    have hw : w.count '"' = 0 := List.count_eq_zero.mpr hq
    rw [List.count_append, hw] at hsub
    simp at hsub
    omega
  · cases a1 with
    | nil => exact absurd rfl hne
    | cons c a1' =>
      have hc : c ∈ 's' :: ':' :: (ds ++ [':', '"']) :=
        ha1.sublist.subset (List.mem_cons_self c a1')
      have hcd : isDelim c = false := by
        rcases List.mem_cons.mp hc with h1 | h1
        · subst h1; decide
        · rcases List.mem_cons.mp h1 with h2 | h2
          · subst h2; decide
          · rcases List.mem_append.mp h2 with h3 | h3
            · exact digit_not_delim c (hdig c h3)
            · rcases List.mem_cons.mp h3 with h4 | h4
              · subst h4; decide
              · rcases List.mem_cons.mp h4 with h5 | h5
                · subst h5; decide
                · simp at h5
      rw [hseq, List.cons_append]
      exact matchSerAt_none_head _ _ hcd

end Sqlpie
namespace Sqlpie

theorem scanGo_cons_some (fuel : Nat) (c : Char) (rest m r : List Char)
    (h : matchSerAt (c :: rest) = some (m, r)) :
    scanGo (fuel + 1) (c :: rest) = m :: scanGo fuel r := by
  simp only [scanGo, h]

/-- C10: when two well-formed serialized tokens are adjacent so that the
terminating semicolon of the first is the delimiter immediately
preceding the second token's `s:`, the scanner returns only the first
token — the global regex consumes the shared delimiter, so the second
token is never scanned (hence never planned or patched). -/
theorem c10_adjacent_tokens (d : Char) (ds1 v ds2 w : List Char)
    (hd : isDelim d = true)
    (h1 : ds1 ≠ []) (h2 : ∀ c ∈ ds1, c.isDigit = true)
    (h3 : v ≠ []) (h4 : '"' ∉ v)
    (_h5 : ds2 ≠ []) (h6 : ∀ c ∈ ds2, c.isDigit = true)
    (_h7 : w ≠ []) (h8 : '"' ∉ w) :
    scanSer (serText d ds1 v ++ tokTail ds2 w) = [serText d ds1 v] := by
  have hdoc : serText d ds1 v ++ tokTail ds2 w
      = d :: (tokTail ds1 v ++ tokTail ds2 w) := rfl
  have hmatch : matchSerAt (serText d ds1 v ++ tokTail ds2 w)
      = some (serText d ds1 v, tokTail ds2 w) :=
    matchSerAt_serText d ds1 v (tokTail ds2 w) hd h1 h2 h3 h4
  rw [hdoc] at hmatch
  rw [scanSer, hdoc, List.length_cons,
    scanGo_cons_some _ _ _ _ _ hmatch,
    scanGo_nil_of _ _ (matchSerAt_none_suffix_tokTail ds2 w h6 h8)]

/-- Witness for C10 at the concrete document `;s:1:"a";s:1:"b";`. -/
theorem c10_witness :
    scanSer (serText ';' ['1'] ['a'] ++ tokTail ['1'] ['b']) = [serText ';' ['1'] ['a']] :=
  c10_adjacent_tokens ';' ['1'] ['a'] ['1'] ['b'] (by decide) (by decide)
    (by decide) (by decide) (by decide) (by decide) (by decide) (by decide) (by decide)

end Sqlpie
namespace Sqlpie

theorem mem_scanGo_shape (fuel : Nat) (l m : List Char) (h : m ∈ scanGo fuel l) :
    ∃ d ds vs, isDelim d = true ∧ ds ≠ [] ∧ (∀ c ∈ ds, c.isDigit = true)
      ∧ vs ≠ [] ∧ '"' ∉ vs ∧ m = serText d ds vs := by
  induction fuel generalizing l with
  | zero => simp [scanGo] at h
  | succ fuel ih =>
    cases l with
    | nil => simp [scanGo] at h
    | cons c rest =>
      rcases hm : matchSerAt (c :: rest) with _ | ⟨m0, r⟩
      · rw [scanGo, hm] at h
        exact ih rest h
      · rw [scanGo_cons_some _ _ _ _ _ hm] at h
        rcases List.mem_cons.mp h with h1 | h1
        · obtain ⟨d, ds, vs, p1, p2, p3, p4, p5, p6, _⟩ :=
            matchSerAt_inv _ _ _ hm
          exact ⟨d, ds, vs, p1, p2, p3, p4, p5, h1 ▸ p6⟩
        · exact ih r h1

theorem isDelim_notLineTerm (c : Char) (h : isDelim c = true) :
    notLineTerm c = true := by
  simp only [isDelim, Bool.or_eq_true, beq_iff_eq] at h
  rcases h with (h | h) | h <;> subst h <;> decide

theorem reParse_serText (d : Char) (ds vs : List Char)
    (hd : notLineTerm d = true) (hds : ds ≠ []) (hdig : ∀ c ∈ ds, c.isDigit = true)
    (hval : vs.all notLineTerm = true) :
    reParse (serText d ds vs) = some ⟨serText d ds vs, natOfDigits ds, vs⟩ := by
  have htk : (ds ++ ':' :: '"' :: (vs ++ ['"', ';'])).takeWhile Char.isDigit = ds :=
    takeWhile_append_cons _ _ _ _ hdig (by decide)
  have hds' : ds.isEmpty = false := by
    cases ds with
    | nil => exact absurd rfl hds
    | cons a t => rfl
  have hrev : (vs ++ ['"', ';']).reverse = ';' :: '"' :: vs.reverse := by
    simp
  show reParse (d :: 's' :: ':' :: (ds ++ ':' :: '"' :: (vs ++ ['"', ';']))) = _
  simp only [reParse, htk, List.drop_left, hrev, List.reverse_reverse,
    hd, hds', hval, Bool.not_false, Bool.and_true, Bool.true_and, Bool.and_self]
  simp [serText, tokTail]

theorem isDigit_not_quote_fn (c : Char) (h : c.isDigit = true) :
    (!(c == '"')) = true := by
  cases hq : c == '"'
  · rfl
  · rw [beq_iff_eq] at hq
    subst hq
    cases h

theorem specDecomp_serText (d : Char) (ds vs : List Char)
    (hd : isDelim d = true) (hdig : ∀ c ∈ ds, c.isDigit = true) :
    specDecomp (serText d ds vs) = ⟨serText d ds vs, natOfDigits ds, vs⟩ := by
  have hdrop3 : (serText d ds vs).drop 3 = ds ++ ':' :: '"' :: (vs ++ ['"', ';']) := rfl
  have htk : (ds ++ ':' :: '"' :: (vs ++ ['"', ';'])).takeWhile Char.isDigit = ds :=
    takeWhile_append_cons _ _ _ _ hdig (by decide)
  have hsplit : serText d ds vs
      = (d :: 's' :: ':' :: (ds ++ [':'])) ++ '"' :: (vs ++ ['"', ';']) := by
    simp [serText, tokTail]
  have hdw : (serText d ds vs).dropWhile (fun c => !(c == '"'))
      = '"' :: (vs ++ ['"', ';']) := by
    rw [hsplit]
    refine dropWhile_append_cons _ _ _ _ (fun c hc => ?_) (by decide)
    rcases List.mem_cons.mp hc with h1 | h1
    · subst h1
      simp [isDelim_not_quote _ hd]
    · rcases List.mem_cons.mp h1 with h2 | h2
      · subst h2; decide
      · rcases List.mem_cons.mp h2 with h3 | h3
        · subst h3; decide
        · rcases List.mem_append.mp h3 with h4 | h4
          · exact isDigit_not_quote_fn c (hdig c h4)
          · rcases List.mem_cons.mp h4 with h5 | h5
            · subst h5; decide
            · simp at h5
  have hval : specValue (serText d ds vs) = vs := by
    rw [specValue, hdw]
    have : vs ++ ['"', ';'] = (vs ++ ['"']) ++ [';'] := by simp
    simp only [List.drop_one, List.tail_cons, this, List.dropLast_concat]
  simp only [specDecomp, hdrop3, htk, hval]

theorem mapOption_eq_map (f : α → Option β) (g : α → β) (xs : List α)
    (h : ∀ a ∈ xs, f a = some (g a)) : mapOption f xs = some (xs.map g) := by
  induction xs with
  | nil => rfl
  | cons a as ih =>
    rw [List.map_cons, mapOption, h a (List.mem_cons_self a as),
      ih (fun b hb => h b (List.mem_cons_of_mem a hb))]

/-- C7 (amended): provided no matched value contains a line terminator,
the scanner returns one `SerializedToken` per non-overlapping match of
`[;{}]s:(\d+):"([^"]+)";`, in order of appearance, with `declaredLength`
the integer parsed from the digits, `value` the text between the double
quotes and `source` the full matched substring.  (If a value contains a
line terminator, the re-parse regex `^.s:(\d+):"(.*)";$` fails to match
and the scanner throws instead of returning tokens — see the
counterexample.) -/
theorem c7_amended (sql : List Char)
    (h : ∀ m ∈ scanSer sql, m.all notLineTerm = true) :
    findSerializedStrings sql = some ((scanSer sql).map specDecomp) := by
  rw [findSerializedStrings]
  refine mapOption_eq_map _ _ _ (fun m hm => ?_)
  obtain ⟨d, ds, vs, p1, p2, p3, p4, p5, p6⟩ := mem_scanGo_shape _ _ _ hm
  subst p6
  have hall := h _ hm
  have hvs : vs.all notLineTerm = true := by
    rw [List.all_eq_true] at hall ⊢
    intro c hc
    refine hall c ?_
    simp [serText, tokTail, hc]
  rw [reParse_serText d ds vs (isDelim_notLineTerm d p1) p2 p3 hvs,
    specDecomp_serText d ds vs p1 p3]

/-- Witness for the amended C7 at the concrete document `;s:2:"ab";`. -/
theorem c7_witness :
    findSerializedStrings (";s:2:\"ab\";".data)
      = some ((scanSer (";s:2:\"ab\";".data)).map specDecomp) :=
  c7_amended (";s:2:\"ab\";".data) (by decide)

end Sqlpie

namespace Sqlpie

/-- Witness for C3 at a concrete document with no match of the find
pattern. -/
theorem c3_witness :
    mainWrites (some ("abc".data)) ("x".data) ("y".data) false = ["abc".data] :=
  c3_zero_matches_id ("abc".data) ("x".data) ("y".data) false (by decide) (by decide)

/-- Witness for C8 at a missing input file. -/
theorem c8_witness :
    (Option.getD (none : Option (List Char)) [] = []
      → mainWrites none [] [] false = [] ∧ mainExitCode none [] [] false ≠ 0)
    ∧ (mainWrites none [] [] false).length ≤ 1 :=
  c8_no_partial_write none [] [] false

/-- C1: the round-trip property fails in the code.  On `;s:5:"hello";`
with find `hello`, replace `hi`, the planner stores the WHOLE substituted
source span `;s:5:"hi";` in `rewriteValue` (only `rewriteChars` gets the
re-extracted value's length, 2), so the patcher writes
`s:2:";s:5:"hi";"` into the document: the declared length 2 does not
equal the byte length of the quoted material that follows, and the token
no longer deserializes.  The intended output `;s:2:"hi";` is not
produced. -/
theorem c1_length_corruption :
    mainWrites (some (";s:5:\"hello\";".data)) ("hello".data) ("hi".data) false
        = [";s:2:\";s:5:\"hi\";\";".data]
      ∧ mainWrites (some (";s:5:\"hello\";".data)) ("hello".data) ("hi".data) false
        ≠ [";s:2:\"hi\";".data] := by
  constructor
  · decide
  · decide

/-- C2 (counterexample): on the document `s:5:"hello";` with find
`hello`, replace `hi`, the run does NOT produce `s:2:"hi";` — the token
has no preceding `[;{}]` delimiter, so the scanner never sees it. -/
theorem c2_counterexample :
    mainWrites (some ("s:5:\"hello\";".data)) ("hello".data) ("hi".data) false
      ≠ ["s:2:\"hi\";".data] := by decide

/-- C2 (amended): on the document `s:5:"hello";` with find `hello`,
replace `hi`, the serialized stage leaves the document alone (the token
lacks a preceding `[;{}]` delimiter, so the scanner regex does not match
it) and only the Plain Rewrite Pass applies, producing `s:5:"hi";` with
the length prefix NOT recomputed. -/
theorem c2_amended :
    mainWrites (some ("s:5:\"hello\";".data)) ("hello".data) ("hi".data) false
      = ["s:5:\"hi\";".data] := by decide

/-- C4 (counterexample): on
`UPDATE t SET x='hello' WHERE s:5:"hello";` with find `hello`, replace
`goodbye`, the run does NOT turn the serialized occurrence into
`s:7:"goodbye";` — a space, not a `[;{}]` delimiter, precedes `s:`, so
the token is never scanned. -/
theorem c4_counterexample :
    mainWrites (some ("UPDATE t SET x='hello' WHERE s:5:\"hello\";".data))
        ("hello".data) ("goodbye".data) false
      ≠ ["UPDATE t SET x='goodbye' WHERE s:7:\"goodbye\";".data] := by decide

/-- C4 (amended): on `UPDATE t SET x='hello' WHERE s:5:"hello";` with
find `hello`, replace `goodbye`, the scanner matches nothing (a space
precedes `s:`), the serialized stage is a no-op, and the Plain Rewrite
Pass replaces both occurrences, yielding
`UPDATE t SET x='goodbye' WHERE s:5:"goodbye";` with the length prefix
unchanged at 5. -/
theorem c4_amended :
    mainWrites (some ("UPDATE t SET x='hello' WHERE s:5:\"hello\";".data))
        ("hello".data) ("goodbye".data) false
      = ["UPDATE t SET x='goodbye' WHERE s:5:\"goodbye\";".data] := by decide

/-- C5 (counterexample): on the document `;s:1:"a";` with find `a` and
empty replace, the substitution empties the token's quoted value, yet the
serialized stage does NOT leave the original token text unmodified. -/
theorem c5_counterexample :
    rewriteSerializedSql false (";s:1:\"a\";".data) ("a".data) []
      ≠ some (";s:1:\"a\";".data) := by decide

/-- C5 (amended): a token is dropped from the patch plan only when its
rewriteChars is 0, and rewriteChars is the length of the value
re-extracted from the WHOLE substituted source span.  A substitution that
merely empties the quoted value leaves the span `;s:1:"";`, which fails
the extraction pattern `^.s:\d+:"([^"]+)".$`, so rewriteChars becomes the
span's full length 8, the token stays in the plan, and the document is
rewritten to `;s:8:";s:1:"";";` — not left unmodified, and not rewritten
to an empty serialized string either. -/
theorem c5_amended :
    findSerializedStrings (";s:1:\"a\";".data)
        = some [⟨";s:1:\"a\";".data, 1, "a".data⟩]
      ∧ plannedEntries ("a".data) [] [⟨";s:1:\"a\";".data, 1, "a".data⟩]
        = [⟨";s:1:\"a\";".data, 1, "a".data, 8, some (";s:1:\"\";".data)⟩]
      ∧ rewriteSerializedSql false (";s:1:\"a\";".data) ("a".data) []
        = some (";s:8:\";s:1:\"\";\";".data) := by
  refine ⟨by decide, by decide, by decide⟩

/-- C6: verbose and non-verbose runs can differ.  On `;s:1:"a";` with the
find pattern `;s:1:"a";` (the whole token) and empty replace, the one
matched token's substituted span is empty, so the empties filter drops it
while `replaceCount` stays 1; the verbose interval timer then reads
`strings[0]` of the now-empty plan and the process crashes with nothing
written, whereas the non-verbose loop completes and the run writes the
empty document. -/
theorem c6_verbose_divergence :
    pipeline true (";s:1:\"a\";".data) [] (";s:1:\"a\";".data) = none
      ∧ pipeline false (";s:1:\"a\";".data) [] (";s:1:\"a\";".data) = some []
      ∧ mainWrites (some (";s:1:\"a\";".data)) (";s:1:\"a\";".data) [] true = []
      ∧ mainWrites (some (";s:1:\"a\";".data)) (";s:1:\"a\";".data) [] false
        = [[]] := by
  refine ⟨by decide, by decide, by decide, by decide⟩

/-- C7 (counterexample): on the document `;s:3:"a\nb";` the scanner regex
has exactly one match, but `findSerializedStrings` returns no token list
at all — the re-parse regex `^.s:(\d+):"(.*)";$` cannot match the
newline inside the value, `match` yields `null`, and the code throws on
`parts[0]`. -/
theorem c7_counterexample :
    findSerializedStrings (";s:3:\"a\nb\";".data) = none
      ∧ scanSer (";s:3:\"a\nb\";".data) = [";s:3:\"a\nb\";".data] := by
  refine ⟨by decide, by decide⟩

/-- C9: the Document Patcher compiles its search key without escaping.
On `x s:3:"axc" y;s:3:"a.c";` with find `a`, replace `b`, the single
scanned token has value `a.c`; the compiled key `s:3:"a.c"` treats `.` as
a wildcard and its leftmost match is the unrelated substring `s:3:"axc"`,
which gets replaced, while the token's own original span `;s:3:"a.c";`
survives verbatim in the output. -/
theorem c9_metachar_mispatch :
    findSerializedStrings ("x s:3:\"axc\" y;s:3:\"a.c\";".data)
        = some [⟨";s:3:\"a.c\";".data, 3, "a.c".data⟩]
      ∧ rewriteSerializedSql false ("x s:3:\"axc\" y;s:3:\"a.c\";".data)
          ("a".data) ("b".data)
        = some ("x s:3:\";s:3:\"b.c\";\" y;s:3:\"a.c\";".data)
      ∧ hasMatch (";s:3:\"a.c\";".data)
          ("x s:3:\";s:3:\"b.c\";\" y;s:3:\"a.c\";".data) = true
      ∧ ("x s:3:\";s:3:\"b.c\";\" y;s:3:\"a.c\";".data : List Char)
        ≠ ("x s:3:\"axc\" y;s:3:\"a.c\";".data : List Char) := by
  refine ⟨by decide, by decide, by decide, by decide⟩

end Sqlpie
